import Mathlib

/-!
# dslog: the logging cache strategy of `go.mercari.io/datastore`

A shallow embedding of `cache/dslog/dslog.go`.

* The types of the `datastore` package the logger only passes around
  (`Key`, `PropertyList`, `Query`, ...) are the fields of `Datastore`; the
  methods the logger calls on them (`key.String()`, `qDump.String()`,
  `err.Error()`) are fields too.  Values on which the source calls a method
  are non-nil.
* `logger` keeps the two data fields of the Go struct.  The `Logf` callback
  and the next handler are the caller's code: every invocation of either is
  recorded, in order, in the trace of the `World`.
* `l.counter` is a Go `int`: 64 bits, two's complement, `+=` wraps.
-/

namespace dslog

/-- The result of a Go `int` operation (64-bit targets): the mathematical
result reduced into `[-2^63, 2^63)`. -/
def wrapInt (x : Int) : Int := (x + 2 ^ 63) % 2 ^ 64 - 2 ^ 63

/-- The types of package `datastore` used by the logger, with the methods the
logger calls on their values. -/
structure Datastore where
  Context : Type
  Key : Type
  PendingKey : Type
  PropertyList : Type
  Query : Type
  QueryDump : Type
  Iterator : Type
  Commit : Type
  Error : Type
  CacheInfo : Type
  /-- The method `key.String()`. -/
  keyString : Key → String
  /-- The method `qDump.String()`. -/
  dumpString : QueryDump → String
  /-- The method `err.Error()`. -/
  errorString : Error → String

/-- The interface `datastore.CacheStrategy`, as the next handler of the chain:
each method gives what the handler returns.  A Go `error` is `Option Error`,
`none` being `nil`. -/
structure CacheStrategy (D : Datastore) where
  PutMultiWithoutTx : D.CacheInfo → List D.Key → List D.PropertyList → List D.Key × Option D.Error
  PutMultiWithTx : D.CacheInfo → List D.Key → List D.PropertyList → List D.PendingKey × Option D.Error
  GetMultiWithoutTx : D.CacheInfo → List D.Key → List D.PropertyList → Option D.Error
  GetMultiWithTx : D.CacheInfo → List D.Key → List D.PropertyList → Option D.Error
  DeleteMultiWithoutTx : D.CacheInfo → List D.Key → Option D.Error
  DeleteMultiWithTx : D.CacheInfo → List D.Key → Option D.Error
  PostCommit : D.CacheInfo → D.Commit → Option D.Error
  PostRollback : D.CacheInfo → Option D.Error
  Run : D.CacheInfo → D.Query → D.QueryDump → D.Iterator
  GetAll : D.CacheInfo → D.Query → D.QueryDump → List D.PropertyList → List D.Key × Option D.Error
  Next : D.CacheInfo → D.Query → D.QueryDump → D.Iterator → D.PropertyList → D.Key × Option D.Error

/-- The two fields of `*datastore.CacheInfo` the logger reads. -/
structure CacheInfoFields (D : Datastore) where
  Context : D.CacheInfo → D.Context
  Next : D.CacheInfo → CacheStrategy D

/-- One variadic argument of a `Logf` call. -/
inductive Arg where
  | int (n : Int)
  | str (s : String)
  deriving DecidableEq, Repr

/-- A method call of `datastore.CacheStrategy` with its arguments. -/
inductive Call (D : Datastore) where
  | PutMultiWithoutTx (info : D.CacheInfo) (keys : List D.Key) (psList : List D.PropertyList)
  | PutMultiWithTx (info : D.CacheInfo) (keys : List D.Key) (psList : List D.PropertyList)
  | GetMultiWithoutTx (info : D.CacheInfo) (keys : List D.Key) (psList : List D.PropertyList)
  | GetMultiWithTx (info : D.CacheInfo) (keys : List D.Key) (psList : List D.PropertyList)
  | DeleteMultiWithoutTx (info : D.CacheInfo) (keys : List D.Key)
  | DeleteMultiWithTx (info : D.CacheInfo) (keys : List D.Key)
  | PostCommit (info : D.CacheInfo) (commit : D.Commit)
  | PostRollback (info : D.CacheInfo)
  | Run (info : D.CacheInfo) (q : D.Query) (qDump : D.QueryDump)
  | GetAll (info : D.CacheInfo) (q : D.Query) (qDump : D.QueryDump) (psList : List D.PropertyList)
  | Next (info : D.CacheInfo) (q : D.Query) (qDump : D.QueryDump) (iter : D.Iterator)
      (ps : D.PropertyList)

/-- What a method of `datastore.CacheStrategy` returns. -/
inductive Ret (D : Datastore) where
  | keys (keys : List D.Key) (err : Option D.Error)
  | pendingKeys (pKeys : List D.PendingKey) (err : Option D.Error)
  | error (err : Option D.Error)
  | iterator (it : D.Iterator)
  | key (key : D.Key) (err : Option D.Error)

/-- What the logger does to the outside: a call of its `Logf` callback, or a
call of a method of `info.Next`. -/
inductive Event (D : Datastore) where
  | Logf (ctx : D.Context) (format : String) (args : List Arg)
  | Next (call : Call D)

/-- The Go struct `logger`: its data fields. -/
structure logger where
  Prefix : String
  counter : Int
  deriving DecidableEq, Repr

/-- The receiver and the calls made so far to `Logf` and to `info.Next`. -/
structure World (D : Datastore) where
  l : logger
  trace : List (Event D)

/-- A method body of `*logger`. -/
abbrev Exec (D : Datastore) (α : Type) : Type := StateM (World D) α

/-- `NewLogger(prefix, logf)`. -/
def NewLogger (pfx : String) : logger := { Prefix := pfx, counter := 1 }

/-- The body of `strings.Join(elems, sep)`: no element gives the empty string,
otherwise the first element followed by `sep` and the next element, for each
further element. -/
def stringsJoin (elems : List String) (sep : String) : String :=
  match elems with
  | [] => ""
  | first :: rest => rest.foldl (fun b s => b ++ sep ++ s) first

/-- `(l *logger) KeysToString(keys)`: the loop appends `key.String()` of each
key to `keyStrings`, then the strings are joined. -/
def KeysToString (D : Datastore) (keys : List D.Key) : String :=
  let keyStrings := keys.foldl (fun keyStrings key => keyStrings ++ [D.keyString key]) []
  stringsJoin keyStrings ", "

/-- The first four statements of every method:
`l.m.Lock(); cnt := l.counter; l.counter += 1; l.m.Unlock()`; gives `cnt`. -/
def lockedIncrement {D : Datastore} : Exec D Int := fun w =>
  (w.l.counter, { w with l := { w.l with counter := wrapInt (w.l.counter + 1) } })

/-- Reading the field `l.Prefix`. -/
def readPrefix {D : Datastore} : Exec D String := fun w => (w.l.Prefix, w)

/-- A call `l.Logf(ctx, format, args...)`. -/
def Logf {D : Datastore} (ctx : D.Context) (format : String) (args : List Arg) : Exec D Unit :=
  fun w => ((), { w with trace := w.trace ++ [Event.Logf ctx format args] })

/-- A call of a method of `info.Next`: the call is recorded and `result`, what
the handler returns for it, is handed back. -/
def callNext {D : Datastore} {α : Type} (call : Call D) (result : α) : Exec D α :=
  fun w => (result, { w with trace := w.trace ++ [Event.Next call] })

/-- The Go `len(keys)`, an `int`. -/
def len {α : Type} (xs : List α) : Int := Int.ofNat xs.length

section methods

variable {D : Datastore} (F : CacheInfoFields D)

/-- `(l *logger) PutMultiWithoutTx`. -/
def PutMultiWithoutTx (info : D.CacheInfo) (keys : List D.Key) (psList : List D.PropertyList) :
    Exec D (List D.Key × Option D.Error) := do
  let cnt ← lockedIncrement
  let pfx ← readPrefix
  Logf (F.Context info) (pfx ++ "PutMultiWithoutTx #%d, len(keys)=%d, keys=[%s]")
    [.int cnt, .int (len keys), .str (KeysToString D keys)]
  let (keys, err) ← callNext (.PutMultiWithoutTx info keys psList)
    ((F.Next info).PutMultiWithoutTx info keys psList)
  match err with
  | none =>
    Logf (F.Context info) (pfx ++ "PutMultiWithoutTx #%d, keys=[%s]")
      [.int cnt, .str (KeysToString D keys)]
  | some e =>
    Logf (F.Context info) (pfx ++ "PutMultiWithoutTx #%d, err=%s") [.int cnt, .str (D.errorString e)]
  return (keys, err)

/-- `(l *logger) PutMultiWithTx`. -/
def PutMultiWithTx (info : D.CacheInfo) (keys : List D.Key) (psList : List D.PropertyList) :
    Exec D (List D.PendingKey × Option D.Error) := do
  let cnt ← lockedIncrement
  let pfx ← readPrefix
  Logf (F.Context info) (pfx ++ "PutMultiWithTx #%d, len(keys)=%d, keys=[%s]")
    [.int cnt, .int (len keys), .str (KeysToString D keys)]
  let (pKeys, err) ← callNext (.PutMultiWithTx info keys psList)
    ((F.Next info).PutMultiWithTx info keys psList)
  match err with
  | some e =>
    Logf (F.Context info) (pfx ++ "PutMultiWithTx #%d, err=%s") [.int cnt, .str (D.errorString e)]
  | none => pure ()
  return (pKeys, err)

/-- `(l *logger) GetMultiWithoutTx`. -/
def GetMultiWithoutTx (info : D.CacheInfo) (keys : List D.Key) (psList : List D.PropertyList) :
    Exec D (Option D.Error) := do
  let cnt ← lockedIncrement
  let pfx ← readPrefix
  Logf (F.Context info) (pfx ++ "GetMultiWithoutTx #%d, len(keys)=%d, keys=[%s]")
    [.int cnt, .int (len keys), .str (KeysToString D keys)]
  let err ← callNext (.GetMultiWithoutTx info keys psList)
    ((F.Next info).GetMultiWithoutTx info keys psList)
  match err with
  | some e =>
    Logf (F.Context info) (pfx ++ "GetMultiWithoutTx #%d, err=%s") [.int cnt, .str (D.errorString e)]
  | none => pure ()
  return err

/-- `(l *logger) GetMultiWithTx`. -/
def GetMultiWithTx (info : D.CacheInfo) (keys : List D.Key) (psList : List D.PropertyList) :
    Exec D (Option D.Error) := do
  let cnt ← lockedIncrement
  let pfx ← readPrefix
  Logf (F.Context info) (pfx ++ "GetMultiWithTx #%d, len(keys)=%d, keys=[%s]")
    [.int cnt, .int (len keys), .str (KeysToString D keys)]
  let err ← callNext (.GetMultiWithTx info keys psList)
    ((F.Next info).GetMultiWithTx info keys psList)
  match err with
  | some e =>
    Logf (F.Context info) (pfx ++ "GetMultiWithTx #%d, err=%s") [.int cnt, .str (D.errorString e)]
  | none => pure ()
  return err

/-- `(l *logger) DeleteMultiWithoutTx`. -/
def DeleteMultiWithoutTx (info : D.CacheInfo) (keys : List D.Key) : Exec D (Option D.Error) := do
  let cnt ← lockedIncrement
  let pfx ← readPrefix
  Logf (F.Context info) (pfx ++ "DeleteMultiWithoutTx #%d, len(keys)=%d, keys=[%s]")
    [.int cnt, .int (len keys), .str (KeysToString D keys)]
  let err ← callNext (.DeleteMultiWithoutTx info keys) ((F.Next info).DeleteMultiWithoutTx info keys)
  match err with
  | some e =>
    Logf (F.Context info) (pfx ++ "DeleteMultiWithoutTx #%d, err=%s")
      [.int cnt, .str (D.errorString e)]
  | none => pure ()
  return err

/-- `(l *logger) DeleteMultiWithTx`. -/
def DeleteMultiWithTx (info : D.CacheInfo) (keys : List D.Key) : Exec D (Option D.Error) := do
  let cnt ← lockedIncrement
  let pfx ← readPrefix
  Logf (F.Context info) (pfx ++ "DeleteMultiWithTx #%d, len(keys)=%d, keys=[%s]")
    [.int cnt, .int (len keys), .str (KeysToString D keys)]
  let err ← callNext (.DeleteMultiWithTx info keys) ((F.Next info).DeleteMultiWithTx info keys)
  match err with
  | some e =>
    Logf (F.Context info) (pfx ++ "DeleteMultiWithTx #%d, err=%s") [.int cnt, .str (D.errorString e)]
  | none => pure ()
  return err

/-- `(l *logger) PostCommit`; the argument `commit` is not used. -/
def PostCommit (info : D.CacheInfo) (_commit : D.Commit) : Exec D (Option D.Error) := do
  let cnt ← lockedIncrement
  let pfx ← readPrefix
  Logf (F.Context info) (pfx ++ "PostCommit #%d") [.int cnt]
  return none

/-- `(l *logger) PostRollback`. -/
def PostRollback (info : D.CacheInfo) : Exec D (Option D.Error) := do
  let cnt ← lockedIncrement
  let pfx ← readPrefix
  Logf (F.Context info) (pfx ++ "PostRollback #%d") [.int cnt]
  return none

/-- `(l *logger) Run`. -/
def Run (info : D.CacheInfo) (q : D.Query) (qDump : D.QueryDump) : Exec D D.Iterator := do
  let cnt ← lockedIncrement
  let pfx ← readPrefix
  Logf (F.Context info) (pfx ++ "Run #%d, q=%s") [.int cnt, .str (D.dumpString qDump)]
  callNext (.Run info q qDump) ((F.Next info).Run info q qDump)

/-- `(l *logger) GetAll`. -/
def GetAll (info : D.CacheInfo) (q : D.Query) (qDump : D.QueryDump)
    (psList : List D.PropertyList) : Exec D (List D.Key × Option D.Error) := do
  let cnt ← lockedIncrement
  let pfx ← readPrefix
  Logf (F.Context info) (pfx ++ "GetAll #%d, q=%s") [.int cnt, .str (D.dumpString qDump)]
  let (keys, err) ← callNext (.GetAll info q qDump psList)
    ((F.Next info).GetAll info q qDump psList)
  match err with
  | none =>
    Logf (F.Context info) (pfx ++ "GetAll #%d, len(keys)=%d, keys=[%s]")
      [.int cnt, .int (len keys), .str (KeysToString D keys)]
  | some e =>
    Logf (F.Context info) (pfx ++ "GetAll #%d, err=%s") [.int cnt, .str (D.errorString e)]
  return (keys, err)

/-- `(l *logger) Next`. -/
def Next (info : D.CacheInfo) (q : D.Query) (qDump : D.QueryDump) (iter : D.Iterator)
    (ps : D.PropertyList) : Exec D (D.Key × Option D.Error) := do
  let cnt ← lockedIncrement
  let pfx ← readPrefix
  Logf (F.Context info) (pfx ++ "Next #%d, q=%s") [.int cnt, .str (D.dumpString qDump)]
  let (key, err) ← callNext (.Next info q qDump iter ps) ((F.Next info).Next info q qDump iter ps)
  match err with
  | none =>
    Logf (F.Context info) (pfx ++ "Next #%d, key=%s") [.int cnt, .str (D.keyString key)]
  | some e =>
    Logf (F.Context info) (pfx ++ "Next #%d, err=%s") [.int cnt, .str (D.errorString e)]
  return (key, err)

end methods

/-- Running a method body on the receiver `l`, from an empty trace: what the
method returns, and the receiver and the calls it made at the end. -/
def exec {D : Datastore} {α : Type} (m : Exec D α) (l : logger) : α × World D :=
  m.run { l := l, trace := [] }

/-- The `Logf` calls of a trace, in order. -/
def logLines {D : Datastore} (trace : List (Event D)) : List (Event D) :=
  trace.filter fun
    | .Logf _ _ _ => true
    | .Next _ => false

/-- The calls of methods of `info.Next` of a trace, in order. -/
def nextCalls {D : Datastore} (trace : List (Event D)) : List (Call D) :=
  trace.filterMap fun
    | .Logf _ _ _ => none
    | .Next call => some call

section calls

variable {D : Datastore} (F : CacheInfoFields D)

/-- The logger method of a call, applied to the arguments of the call. -/
def Call.run : Call D → Exec D (Ret D)
  | .PutMultiWithoutTx info keys psList =>
    (fun r => Ret.keys r.1 r.2) <$> dslog.PutMultiWithoutTx F info keys psList
  | .PutMultiWithTx info keys psList =>
    (fun r => Ret.pendingKeys r.1 r.2) <$> dslog.PutMultiWithTx F info keys psList
  | .GetMultiWithoutTx info keys psList => Ret.error <$> dslog.GetMultiWithoutTx F info keys psList
  | .GetMultiWithTx info keys psList => Ret.error <$> dslog.GetMultiWithTx F info keys psList
  | .DeleteMultiWithoutTx info keys => Ret.error <$> dslog.DeleteMultiWithoutTx F info keys
  | .DeleteMultiWithTx info keys => Ret.error <$> dslog.DeleteMultiWithTx F info keys
  | .PostCommit info commit => Ret.error <$> dslog.PostCommit F info commit
  | .PostRollback info => Ret.error <$> dslog.PostRollback F info
  | .Run info q qDump => Ret.iterator <$> dslog.Run F info q qDump
  | .GetAll info q qDump psList =>
    (fun r => Ret.keys r.1 r.2) <$> dslog.GetAll F info q qDump psList
  | .Next info q qDump iter ps => (fun r => Ret.key r.1 r.2) <$> dslog.Next F info q qDump iter ps

/-- What the next handler `info.Next` returns for the same method with the
same arguments. -/
def Call.next : Call D → Ret D
  | .PutMultiWithoutTx info keys psList =>
    (fun r => Ret.keys r.1 r.2) ((F.Next info).PutMultiWithoutTx info keys psList)
  | .PutMultiWithTx info keys psList =>
    (fun r => Ret.pendingKeys r.1 r.2) ((F.Next info).PutMultiWithTx info keys psList)
  | .GetMultiWithoutTx info keys psList => .error ((F.Next info).GetMultiWithoutTx info keys psList)
  | .GetMultiWithTx info keys psList => .error ((F.Next info).GetMultiWithTx info keys psList)
  | .DeleteMultiWithoutTx info keys => .error ((F.Next info).DeleteMultiWithoutTx info keys)
  | .DeleteMultiWithTx info keys => .error ((F.Next info).DeleteMultiWithTx info keys)
  | .PostCommit info commit => .error ((F.Next info).PostCommit info commit)
  | .PostRollback info => .error ((F.Next info).PostRollback info)
  | .Run info q qDump => .iterator ((F.Next info).Run info q qDump)
  | .GetAll info q qDump psList =>
    (fun r => Ret.keys r.1 r.2) ((F.Next info).GetAll info q qDump psList)
  | .Next info q qDump iter ps =>
    (fun r => Ret.key r.1 r.2) ((F.Next info).Next info q qDump iter ps)

end calls

/-- The nine methods whose body calls the same method of `info.Next`. -/
def Call.delegating {D : Datastore} : Call D → Bool
  | .PostCommit _ _ => false
  | .PostRollback _ => false
  | _ => true

/-- The `error` of a returned tuple; `Run` returns none. -/
def Ret.err {D : Datastore} : Ret D → Option D.Error
  | .keys _ err => err
  | .pendingKeys _ err => err
  | .error err => err
  | .iterator _ => none
  | .key _ err => err

/-- The `info` argument of a call. -/
def Call.info {D : Datastore} : Call D → D.CacheInfo
  | .PutMultiWithoutTx info _ _ => info
  | .PutMultiWithTx info _ _ => info
  | .GetMultiWithoutTx info _ _ => info
  | .GetMultiWithTx info _ _ => info
  | .DeleteMultiWithoutTx info _ => info
  | .DeleteMultiWithTx info _ => info
  | .PostCommit info _ => info
  | .PostRollback info => info
  | .Run info _ _ => info
  | .GetAll info _ _ _ => info
  | .Next info _ _ _ _ => info

/-- The line a call logs before anything else, on the receiver `l`: the
format is the prefix, the method name, the correlation number and a summary of
the input; the correlation number is `l.counter`. -/
def Call.beginLine {D : Datastore} (F : CacheInfoFields D) (l : logger) : Call D → Event D
  | .PutMultiWithoutTx info keys _ =>
    .Logf (F.Context info) (l.Prefix ++ "PutMultiWithoutTx #%d, len(keys)=%d, keys=[%s]")
      [.int l.counter, .int (len keys), .str (KeysToString D keys)]
  | .PutMultiWithTx info keys _ =>
    .Logf (F.Context info) (l.Prefix ++ "PutMultiWithTx #%d, len(keys)=%d, keys=[%s]")
      [.int l.counter, .int (len keys), .str (KeysToString D keys)]
  | .GetMultiWithoutTx info keys _ =>
    .Logf (F.Context info) (l.Prefix ++ "GetMultiWithoutTx #%d, len(keys)=%d, keys=[%s]")
      [.int l.counter, .int (len keys), .str (KeysToString D keys)]
  | .GetMultiWithTx info keys _ =>
    .Logf (F.Context info) (l.Prefix ++ "GetMultiWithTx #%d, len(keys)=%d, keys=[%s]")
      [.int l.counter, .int (len keys), .str (KeysToString D keys)]
  | .DeleteMultiWithoutTx info keys =>
    .Logf (F.Context info) (l.Prefix ++ "DeleteMultiWithoutTx #%d, len(keys)=%d, keys=[%s]")
      [.int l.counter, .int (len keys), .str (KeysToString D keys)]
  | .DeleteMultiWithTx info keys =>
    .Logf (F.Context info) (l.Prefix ++ "DeleteMultiWithTx #%d, len(keys)=%d, keys=[%s]")
      [.int l.counter, .int (len keys), .str (KeysToString D keys)]
  | .PostCommit info _ => .Logf (F.Context info) (l.Prefix ++ "PostCommit #%d") [.int l.counter]
  | .PostRollback info => .Logf (F.Context info) (l.Prefix ++ "PostRollback #%d") [.int l.counter]
  | .Run info _ qDump =>
    .Logf (F.Context info) (l.Prefix ++ "Run #%d, q=%s") [.int l.counter, .str (D.dumpString qDump)]
  | .GetAll info _ qDump _ =>
    .Logf (F.Context info) (l.Prefix ++ "GetAll #%d, q=%s") [.int l.counter, .str (D.dumpString qDump)]
  | .Next info _ qDump _ _ =>
    .Logf (F.Context info) (l.Prefix ++ "Next #%d, q=%s") [.int l.counter, .str (D.dumpString qDump)]

/-- The format, after the prefix, of the error line of a method: method name,
correlation number, error message.  The two notifications and `Run` have no
error line. -/
def Call.errorFormat {D : Datastore} : Call D → Option String
  | .PutMultiWithoutTx _ _ _ => some "PutMultiWithoutTx #%d, err=%s"
  | .PutMultiWithTx _ _ _ => some "PutMultiWithTx #%d, err=%s"
  | .GetMultiWithoutTx _ _ _ => some "GetMultiWithoutTx #%d, err=%s"
  | .GetMultiWithTx _ _ _ => some "GetMultiWithTx #%d, err=%s"
  | .DeleteMultiWithoutTx _ _ => some "DeleteMultiWithoutTx #%d, err=%s"
  | .DeleteMultiWithTx _ _ => some "DeleteMultiWithTx #%d, err=%s"
  | .PostCommit _ _ => none
  | .PostRollback _ => none
  | .Run _ _ _ => none
  | .GetAll _ _ _ _ => some "GetAll #%d, err=%s"
  | .Next _ _ _ _ _ => some "Next #%d, err=%s"

/-- The first argument of a `Logf` call when it is an integer: the place of
the correlation number in every format of the logger. -/
def Event.number {D : Datastore} : Event D → Option Int
  | .Logf _ _ (.int n :: _) => some n
  | _ => none

/-- The methods that log a line for a successful outcome. -/
def Call.logsSuccess {D : Datastore} : Call D → Bool
  | .PutMultiWithoutTx _ _ _ => true
  | .GetAll _ _ _ _ => true
  | .Next _ _ _ _ _ => true
  | _ => false

/-! ### A small instance, for concrete runs -/

/-- A datastore whose keys, query dumps and errors are their own strings. -/
def exD : Datastore where
  Context := Unit
  Key := String
  PendingKey := String
  PropertyList := Unit
  Query := Unit
  QueryDump := String
  Iterator := Nat
  Commit := Unit
  Error := String
  CacheInfo := Bool
  keyString := id
  dumpString := id
  errorString := id

/-- A handler that fails every method with the error `boom` when `fail` is
set, and otherwise succeeds, giving back keys that differ from its input. -/
def exNext (fail : Bool) : CacheStrategy exD where
  PutMultiWithoutTx := fun _ keys _ => if fail then ([], some "boom") else ("new" :: keys, none)
  PutMultiWithTx := fun _ keys _ => if fail then ([], some "boom") else (keys, none)
  GetMultiWithoutTx := fun _ _ _ => if fail then some "boom" else none
  GetMultiWithTx := fun _ _ _ => if fail then some "boom" else none
  DeleteMultiWithoutTx := fun _ _ => if fail then some "boom" else none
  DeleteMultiWithTx := fun _ _ => if fail then some "boom" else none
  PostCommit := fun _ _ => if fail then some "boom" else none
  PostRollback := fun _ => if fail then some "boom" else none
  Run := fun _ _ _ => (7 : Nat)
  GetAll := fun _ _ _ _ => if fail then ([], some "boom") else (["a", "b"], none)
  Next := fun _ _ _ _ _ => if fail then ("", some "boom") else ("a", none)

/-- An info is its own failure flag: `true` carries the failing handler. -/
def exF : CacheInfoFields exD where
  Context := fun _ => ()
  Next := exNext

/-- The receiver after the locked increment. -/
def logger.bump (l : logger) : logger := { l with counter := wrapInt (l.counter + 1) }

/-- The calls of a sequence made one after the other on the same receiver,
starting from `l`: for each call, the receiver after it and the calls it made
to `Logf` and to `info.Next`. -/
def runCalls {D : Datastore} (F : CacheInfoFields D) : logger → List (Call D) → List (World D)
  | _, [] => []
  | l, c :: cs => (exec (c.run F) l).2 :: runCalls F (exec (c.run F) l).2.l cs

/-- The correlation number a call used: the number of the first line it
logged. -/
def World.correlation {D : Datastore} (w : World D) : Option Int :=
  (logLines w.trace).head?.bind Event.number

/-- The strings in order with `sep` between neighbours, and nothing before the
first or after the last. -/
def joinedWith (sep : String) : List String → String
  | [] => ""
  | [s] => s
  | s :: t :: rest => s ++ sep ++ joinedWith sep (t :: rest)

end dslog

/-!
# favcliptools: the JSON form of `userID`

A shallow embedding of `userID.MarshalJSON`, `userID.UnmarshalJSON` and of the
JSON steps of the test `favclipTools` in `testsuite/favcliptools/main.go`.  The
functions of the Go standard library they call (`fmt.Sprintf`, `json.Marshal`,
`json.Unmarshal`, `json.Number.Int64`, which is `strconv.ParseInt`) are not
part of the repository; they are modelled here after their documented
behaviour (Go 1.14 and later), text being a list of characters.
-/

namespace favcliptools

/-- A non-nil `error` returned by the standard library, by the package it
comes from. -/
inductive GoError where
  | json
  | strconv
  deriving DecidableEq, Repr

/-- The digit character of `d < 10`. -/
def digitChar (d : Nat) : Char := Char.ofNat (48 + d)

/-- The digit loop of `fmt` for `%d`: digits are written from the last one
backwards, `for u >= 10 { write u%10; u /= 10 }`, then the leading digit. -/
def fmtUint : Nat → Nat → List Char → List Char
  | 0, u, buf => digitChar (u % 10) :: buf
  | fuel + 1, u, buf =>
    if u ≥ 10 then fmtUint fuel (u / 10) (digitChar (u % 10) :: buf) else digitChar u :: buf

/-- `fmt.Sprintf("%d", v)` for an `int64`: the decimal digits of the absolute
value, after a minus sign when `v` is negative. -/
def SprintfD (v : Int) : List Char :=
  if v < 0 then '-' :: fmtUint v.natAbs v.natAbs [] else fmtUint v.natAbs v.natAbs []

/-- A decimal digit, `'0' <= c && c <= '9'`. -/
def isDigit (c : Char) : Bool := decide ('0' ≤ c ∧ c ≤ '9')

/-- The function `isValidNumber` of `encoding/json`: the JSON number grammar. -/
def isValidNumber (s : List Char) : Bool :=
  match s with
  | [] => false
  | c :: rest =>
    -- optional minus
    let s := if c = '-' then rest else c :: rest
    match s with
    | [] => false
    | d :: rest =>
      -- digits
      if d = '0' ∨ ('1' ≤ d ∧ d ≤ '9') then
        let s := if d = '0' then rest else rest.dropWhile isDigit
        -- a dot followed by one or more digits
        let s := match s with
          | p :: f :: more => if p = '.' ∧ isDigit f then more.dropWhile isDigit else s
          | _ => s
        -- e or E, an optional sign, digits
        match s with
        | e :: x :: more =>
          if e = 'e' ∨ e = 'E' then
            if x = '+' ∨ x = '-' then
              match more with
              | [] => false
              | _ => (more.dropWhile isDigit).isEmpty
            else ((x :: more).dropWhile isDigit).isEmpty
          else false
        | [_] => false
        | [] => true
      else false

/-- The function `json.Marshal` on a `json.Number`: the number itself, `0` for
the empty one, an error when it is not a number literal. -/
def jsonMarshalNumber (n : List Char) : Except GoError (List Char) :=
  let numStr := if n = [] then ['0'] else n
  if isValidNumber numStr then .ok numStr else .error .json

/-- White space between JSON tokens. -/
def isSpace (c : Char) : Bool := c = ' ' ∨ c = '\t' ∨ c = '\r' ∨ c = '\n'

/-- The text without the white space before and after it. -/
def trimSpace (s : List Char) : List Char :=
  ((s.dropWhile isSpace).reverse.dropWhile isSpace).reverse

/-- The value of a hexadecimal digit. -/
def hexVal (c : Char) : Option Nat :=
  if '0' ≤ c ∧ c ≤ '9' then some (c.toNat - 48)
  else if 'a' ≤ c ∧ c ≤ 'f' then some (c.toNat - 87)
  else if 'A' ≤ c ∧ c ≤ 'F' then some (c.toNat - 55)
  else none

/-- The characters of a JSON string literal after its opening quote, up to the
closing quote that ends the text, escapes decoded.  A `\u` escape gives the
character of its code, which is exact for the ASCII codes; the others only
matter here as characters no number contains. -/
def unquoteBody : List Char → Option (List Char)
  | [] => none
  | c :: rest =>
    if c = '"' then (if rest = [] then some [] else none)
    else if c = '\\' then
      match rest with
      | 'u' :: h1 :: h2 :: h3 :: h4 :: more =>
        match hexVal h1, hexVal h2, hexVal h3, hexVal h4, unquoteBody more with
        | some a, some b, some c, some d, some s =>
          some (Char.ofNat (((a * 16 + b) * 16 + c) * 16 + d) :: s)
        | _, _, _, _, _ => none
      | e :: more =>
        let r := if e = '"' ∨ e = '\\' ∨ e = '/' then some e
          else if e = 'b' then some (Char.ofNat 8)
          else if e = 'f' then some (Char.ofNat 12)
          else if e = 'n' then some '\n'
          else if e = 'r' then some '\r'
          else if e = 't' then some '\t'
          else none
        match r, unquoteBody more with
        | some x, some s => some (x :: s)
        | _, _ => none
      | [] => none
    else if c.toNat < 32 then none
    else (unquoteBody rest).map (c :: ·)

/-- The call `json.Unmarshal(b, &jsonNumber)` on an empty `json.Number`: a
number literal is stored as written, `null` leaves the number empty, a string
literal is stored when what it quotes is a number literal; anything else,
valid JSON or not, is an error. -/
def jsonUnmarshalNumber (b : List Char) : Except GoError (List Char) :=
  let item := trimSpace b
  if isValidNumber item then .ok item
  else if item = ['n', 'u', 'l', 'l'] then .ok []
  else
    match item with
    | '"' :: body =>
      match unquoteBody body with
      | some s => if isValidNumber s then .ok s else .error .json
      | none => .error .json
    | _ => .error .json

/-- The loop of `strconv.ParseUint(s, 10, 64)`: every character has to be a
decimal digit and the value has to stay below `2^64`. -/
def parseUintLoop : Nat → List Char → Except GoError Nat
  | n, [] => .ok n
  | n, c :: s =>
    if isDigit c then
      if n * 10 + (c.toNat - 48) ≥ 2 ^ 64 then .error .strconv
      else parseUintLoop (n * 10 + (c.toNat - 48)) s
    else .error .strconv

/-- `strconv.ParseUint(s, 10, 64)`. -/
def ParseUint (s : List Char) : Except GoError Nat :=
  if s = [] then .error .strconv else parseUintLoop 0 s

/-- `strconv.ParseInt(s, 10, 64)`: an optional sign, then `ParseUint`, then
the range check of `int64`. -/
def ParseInt (s : List Char) : Except GoError Int :=
  match s with
  | [] => .error .strconv
  | c :: rest =>
    let neg := decide (c = '-')
    let s := if c = '+' ∨ c = '-' then rest else c :: rest
    match ParseUint s with
    | .error e => .error e
    | .ok un =>
      if !neg && un ≥ 2 ^ 63 then .error .strconv
      else if neg && un > 2 ^ 63 then .error .strconv
      else .ok (if neg then -(un : Int) else (un : Int))

/-- The type `userID`, an `int64`. -/
abbrev userID : Type := Int

/-- The values of `int64`. -/
def isInt64 (v : Int) : Prop := -2 ^ 63 ≤ v ∧ v < 2 ^ 63

/-- `(id userID) MarshalJSON()`. -/
def userID.MarshalJSON (id : userID) : Except GoError (List Char) :=
  let jsonNumber := SprintfD id
  jsonMarshalNumber jsonNumber

/-- `(id *userID) UnmarshalJSON(b)`: the value of `*id` after the call and the
error returned. -/
def userID.UnmarshalJSON (id : userID) (b : List Char) : userID × Option GoError :=
  match jsonUnmarshalNumber b with
  | .error err => (id, some err)
  | .ok jsonNumber =>
    match ParseInt jsonNumber with
    | .error err => (id, some err)
    | .ok v => (v, none)


/-- The struct `User`; its JSON names are `id`, `name` and `mentorID`. -/
structure User where
  ID : userID
  Name : String
  MentorID : userID
  deriving DecidableEq, Repr

/-- The characters `json.Marshal` writes as they are inside a string literal
and that this model covers: printable ASCII other than the quote, the
backslash and the three characters escaped for HTML. -/
def isPlain (c : Char) : Bool :=
  decide (32 ≤ c.toNat ∧ c.toNat < 127 ∧ c ≠ '"' ∧ c ≠ '\\' ∧ c ≠ '<' ∧ c ≠ '>' ∧ c ≠ '&')

/-- The function `json.Marshal` on a Go string of plain characters: the string
between quotes.  Other strings are written with escapes, which this model does
not cover (`none`). -/
def jsonMarshalString (s : String) : Option (List Char) :=
  if s.toList.all isPlain then some ('"' :: s.toList ++ ['"']) else none

/-- The call `json.Marshal(user)`: the fields in order, each as its JSON name
and its value, the two ids through `MarshalJSON`, whose number literal is
written as returned.  `none` when the name is outside `jsonMarshalString`. -/
def jsonMarshalUser (user : User) : Option (Except GoError (List Char)) :=
  match userID.MarshalJSON user.ID with
  | .error err => some (.error err)
  | .ok id =>
    match jsonMarshalString user.Name with
    | none => none
    | some name =>
      match userID.MarshalJSON user.MentorID with
      | .error err => some (.error err)
      | .ok mentorID =>
        some (.ok ("\x7b\"id\":".toList ++ id ++ ",\"name\":".toList ++ name ++
          ",\"mentorID\":".toList ++ mentorID ++ "\x7d".toList))

/-- The text after the white space at its start. -/
def skipSpace (s : List Char) : List Char := s.dropWhile isSpace

/-- A string literal without escapes, read after its opening quote: what it
quotes and the text after its closing quote. -/
def scanPlainString : List Char → Option (List Char × List Char)
  | [] => none
  | c :: rest =>
    if c = '"' then some ([], rest)
    else if c = '\\' ∨ c.toNat < 32 then none
    else (scanPlainString rest).map (fun r => (c :: r.1, r.2))

/-- A character that can stand in a number literal. -/
def isNumberChar (c : Char) : Bool :=
  isDigit c || decide (c = '-' ∨ c = '+' ∨ c = '.' ∨ c = 'e' ∨ c = 'E')

/-- A member value of the covered kinds, as written: a string literal without
escapes or a number literal; and the text after it. -/
def scanValue (s : List Char) : Option (List Char × List Char) :=
  match s with
  | [] => none
  | c :: rest =>
    if c = '"' then (scanPlainString rest).map (fun r => ('"' :: r.1 ++ ['"'], r.2))
    else if isValidNumber (s.takeWhile isNumberChar) then
      some (s.takeWhile isNumberChar, s.dropWhile isNumberChar)
    else none

/-- The members of an object, read from the first key on: the keys with the
values as written, and the text after the closing brace. -/
def scanMembers : Nat → List Char → Option (List (List Char × List Char) × List Char)
  | 0, _ => none
  | fuel + 1, s =>
    match s with
    | [] => none
    | q :: afterQuote =>
      if q = '"' then
        match scanPlainString afterQuote with
        | none => none
        | some (key, afterKey) =>
          match skipSpace afterKey with
          | [] => none
          | colon :: afterColon =>
            if colon = ':' then
              match scanValue (skipSpace afterColon) with
              | none => none
              | some (raw, afterValue) =>
                match skipSpace afterValue with
                | [] => none
                | sep :: afterSep =>
                  if sep = ',' then
                    (scanMembers fuel (skipSpace afterSep)).map
                      (fun r => ((key, raw) :: r.1, r.2))
                  else if sep = '\x7d' then some ([(key, raw)], afterSep)
                  else none
            else none
      else none

/-- The members of a JSON object whose keys are string literals without
escapes and whose values are number literals or string literals without
escapes; `none` for any other text. -/
def scanObject (b : List Char) : Option (List (List Char × List Char)) :=
  match skipSpace b with
  | [] => none
  | brace :: afterBrace =>
    if brace = '\x7b' then
      match skipSpace afterBrace with
      | [] => none
      | c :: rest =>
        if c = '\x7d' then (if skipSpace rest = [] then some [] else none)
        else
          match scanMembers (c :: rest).length (c :: rest) with
          | none => none
          | some (members, after) => if skipSpace after = [] then some members else none
    else none

/-- An ASCII letter in lower case, any other character unchanged. -/
def asciiLower (c : Char) : Char :=
  if 'A' ≤ c ∧ c ≤ 'Z' then Char.ofNat (c.toNat + 32) else c

/-- A key names a field when it is the JSON name of the field up to the case
of its letters. -/
def keyMatches (key : List Char) (name : String) : Bool :=
  key.map asciiLower = name.toList.map asciiLower

/-- The members of an object stored into a `User`, in order.  An id goes
through `UnmarshalJSON`, whose error ends the decoding; the name takes what a
string literal quotes, a number there is a type error that is kept while the
decoding goes on; other keys are skipped.  Gives the struct at the end and the
error returned. -/
def decodeMembers : User → Option GoError → List (List Char × List Char) → User × Option GoError
  | user, saved, [] => (user, saved)
  | user, saved, (key, raw) :: members =>
    if keyMatches key "id" then
      match userID.UnmarshalJSON user.ID raw with
      | (id, none) => decodeMembers { user with ID := id } saved members
      | (_, some err) => (user, some err)
    else if keyMatches key "name" then
      match raw with
      | '"' :: body => decodeMembers { user with Name := String.mk body.dropLast } saved members
      | _ => decodeMembers user (saved <|> some .json) members
    else if keyMatches key "mentorID" then
      match userID.UnmarshalJSON user.MentorID raw with
      | (id, none) => decodeMembers { user with MentorID := id } saved members
      | (_, some err) => (user, some err)
    else decodeMembers user saved members

/-- The call `json.Unmarshal(b, user)` for the texts `scanObject` covers: the
struct after the call and the error returned. -/
def jsonUnmarshalUser (b : List Char) (user : User) : Option (User × Option GoError) :=
  (scanObject b).map (decodeMembers user none)

end favcliptools

namespace dslog

/-! ### The methods, run on a receiver -/

section run

variable {D : Datastore} (F : CacheInfoFields D)

theorem exec_map {α β : Type} (f : α → β) (m : Exec D α) (l : logger) :
    exec (f <$> m) l = (f (exec m l).1, (exec m l).2) := rfl

theorem exec_PutMultiWithoutTx (l : logger) (info : D.CacheInfo) (keys : List D.Key)
    (psList : List D.PropertyList) :
    exec (PutMultiWithoutTx F info keys psList) l =
      ((F.Next info).PutMultiWithoutTx info keys psList,
       { l := l.bump,
         trace := [Call.beginLine F l (.PutMultiWithoutTx info keys psList),
           .Next (.PutMultiWithoutTx info keys psList),
           match ((F.Next info).PutMultiWithoutTx info keys psList).2 with
           | none => .Logf (F.Context info) (l.Prefix ++ "PutMultiWithoutTx #%d, keys=[%s]")
               [.int l.counter,
                .str (KeysToString D ((F.Next info).PutMultiWithoutTx info keys psList).1)]
           | some e => .Logf (F.Context info) (l.Prefix ++ "PutMultiWithoutTx #%d, err=%s")
               [.int l.counter, .str (D.errorString e)]] }) := by
  unfold PutMultiWithoutTx
  generalize (F.Next info).PutMultiWithoutTx info keys psList = r
  obtain ⟨ks, _ | e⟩ := r <;> rfl

theorem exec_PutMultiWithTx (l : logger) (info : D.CacheInfo) (keys : List D.Key)
    (psList : List D.PropertyList) :
    exec (PutMultiWithTx F info keys psList) l =
      ((F.Next info).PutMultiWithTx info keys psList,
       { l := l.bump,
         trace := [Call.beginLine F l (.PutMultiWithTx info keys psList),
           .Next (.PutMultiWithTx info keys psList)] ++
           match ((F.Next info).PutMultiWithTx info keys psList).2 with
           | none => []
           | some e => [.Logf (F.Context info) (l.Prefix ++ "PutMultiWithTx #%d, err=%s")
               [.int l.counter, .str (D.errorString e)]] }) := by
  unfold PutMultiWithTx
  generalize (F.Next info).PutMultiWithTx info keys psList = r
  obtain ⟨ks, _ | e⟩ := r <;> rfl

theorem exec_GetMultiWithoutTx (l : logger) (info : D.CacheInfo) (keys : List D.Key)
    (psList : List D.PropertyList) :
    exec (GetMultiWithoutTx F info keys psList) l =
      ((F.Next info).GetMultiWithoutTx info keys psList,
       { l := l.bump,
         trace := [Call.beginLine F l (.GetMultiWithoutTx info keys psList),
           .Next (.GetMultiWithoutTx info keys psList)] ++
           match (F.Next info).GetMultiWithoutTx info keys psList with
           | none => []
           | some e => [.Logf (F.Context info) (l.Prefix ++ "GetMultiWithoutTx #%d, err=%s")
               [.int l.counter, .str (D.errorString e)]] }) := by
  unfold GetMultiWithoutTx
  generalize (F.Next info).GetMultiWithoutTx info keys psList = r
  obtain _ | e := r <;> rfl

theorem exec_GetMultiWithTx (l : logger) (info : D.CacheInfo) (keys : List D.Key)
    (psList : List D.PropertyList) :
    exec (GetMultiWithTx F info keys psList) l =
      ((F.Next info).GetMultiWithTx info keys psList,
       { l := l.bump,
         trace := [Call.beginLine F l (.GetMultiWithTx info keys psList),
           .Next (.GetMultiWithTx info keys psList)] ++
           match (F.Next info).GetMultiWithTx info keys psList with
           | none => []
           | some e => [.Logf (F.Context info) (l.Prefix ++ "GetMultiWithTx #%d, err=%s")
               [.int l.counter, .str (D.errorString e)]] }) := by
  unfold GetMultiWithTx
  generalize (F.Next info).GetMultiWithTx info keys psList = r
  obtain _ | e := r <;> rfl

theorem exec_DeleteMultiWithoutTx (l : logger) (info : D.CacheInfo) (keys : List D.Key) :
    exec (DeleteMultiWithoutTx F info keys) l =
      ((F.Next info).DeleteMultiWithoutTx info keys,
       { l := l.bump,
         trace := [Call.beginLine F l (.DeleteMultiWithoutTx info keys),
           .Next (.DeleteMultiWithoutTx info keys)] ++
           match (F.Next info).DeleteMultiWithoutTx info keys with
           | none => []
           | some e => [.Logf (F.Context info) (l.Prefix ++ "DeleteMultiWithoutTx #%d, err=%s")
               [.int l.counter, .str (D.errorString e)]] }) := by
  unfold DeleteMultiWithoutTx
  generalize (F.Next info).DeleteMultiWithoutTx info keys = r
  obtain _ | e := r <;> rfl

theorem exec_DeleteMultiWithTx (l : logger) (info : D.CacheInfo) (keys : List D.Key) :
    exec (DeleteMultiWithTx F info keys) l =
      ((F.Next info).DeleteMultiWithTx info keys,
       { l := l.bump,
         trace := [Call.beginLine F l (.DeleteMultiWithTx info keys),
           .Next (.DeleteMultiWithTx info keys)] ++
           match (F.Next info).DeleteMultiWithTx info keys with
           | none => []
           | some e => [.Logf (F.Context info) (l.Prefix ++ "DeleteMultiWithTx #%d, err=%s")
               [.int l.counter, .str (D.errorString e)]] }) := by
  unfold DeleteMultiWithTx
  generalize (F.Next info).DeleteMultiWithTx info keys = r
  obtain _ | e := r <;> rfl

theorem exec_PostCommit (l : logger) (info : D.CacheInfo) (commit : D.Commit) :
    exec (PostCommit F info commit) l =
      (none, { l := l.bump, trace := [Call.beginLine F l (.PostCommit info commit)] }) := rfl

theorem exec_PostRollback (l : logger) (info : D.CacheInfo) :
    exec (PostRollback F info) l =
      (none, { l := l.bump, trace := [Call.beginLine F l (.PostRollback info)] }) := rfl

theorem exec_Run (l : logger) (info : D.CacheInfo) (q : D.Query) (qDump : D.QueryDump) :
    exec (Run F info q qDump) l =
      ((F.Next info).Run info q qDump,
       { l := l.bump,
         trace := [Call.beginLine F l (.Run info q qDump), .Next (.Run info q qDump)] }) := rfl

theorem exec_GetAll (l : logger) (info : D.CacheInfo) (q : D.Query) (qDump : D.QueryDump)
    (psList : List D.PropertyList) :
    exec (GetAll F info q qDump psList) l =
      ((F.Next info).GetAll info q qDump psList,
       { l := l.bump,
         trace := [Call.beginLine F l (.GetAll info q qDump psList),
           .Next (.GetAll info q qDump psList),
           match ((F.Next info).GetAll info q qDump psList).2 with
           | none => .Logf (F.Context info) (l.Prefix ++ "GetAll #%d, len(keys)=%d, keys=[%s]")
               [.int l.counter, .int (len ((F.Next info).GetAll info q qDump psList).1),
                .str (KeysToString D ((F.Next info).GetAll info q qDump psList).1)]
           | some e => .Logf (F.Context info) (l.Prefix ++ "GetAll #%d, err=%s")
               [.int l.counter, .str (D.errorString e)]] }) := by
  unfold GetAll
  generalize (F.Next info).GetAll info q qDump psList = r
  obtain ⟨ks, _ | e⟩ := r <;> rfl

theorem exec_Next (l : logger) (info : D.CacheInfo) (q : D.Query) (qDump : D.QueryDump)
    (iter : D.Iterator) (ps : D.PropertyList) :
    exec (Next F info q qDump iter ps) l =
      ((F.Next info).Next info q qDump iter ps,
       { l := l.bump,
         trace := [Call.beginLine F l (.Next info q qDump iter ps),
           .Next (.Next info q qDump iter ps),
           match ((F.Next info).Next info q qDump iter ps).2 with
           | none => .Logf (F.Context info) (l.Prefix ++ "Next #%d, key=%s")
               [.int l.counter, .str (D.keyString ((F.Next info).Next info q qDump iter ps).1)]
           | some e => .Logf (F.Context info) (l.Prefix ++ "Next #%d, err=%s")
               [.int l.counter, .str (D.errorString e)]] }) := by
  unfold Next
  generalize (F.Next info).Next info q qDump iter ps = r
  obtain ⟨k, _ | e⟩ := r <;> rfl

end run

/-! ### Facts about a single call -/

section single

variable {D : Datastore} (F : CacheInfoFields D)

theorem exec_run_logger (l : logger) (c : Call D) : (exec (c.run F) l).2.l = l.bump := by
  cases c <;>
    simp only [Call.run, exec_map, exec_PutMultiWithoutTx, exec_PutMultiWithTx,
      exec_GetMultiWithoutTx, exec_GetMultiWithTx, exec_DeleteMultiWithoutTx,
      exec_DeleteMultiWithTx, exec_PostCommit, exec_PostRollback, exec_Run, exec_GetAll, exec_Next]

theorem exec_run_head (l : logger) (c : Call D) :
    (exec (c.run F) l).2.trace.head? = some (c.beginLine F l) := by
  cases c <;>
    simp only [Call.run, exec_map, exec_PutMultiWithoutTx, exec_PutMultiWithTx,
      exec_GetMultiWithoutTx, exec_GetMultiWithTx, exec_DeleteMultiWithoutTx,
      exec_DeleteMultiWithTx, exec_PostCommit, exec_PostRollback, exec_Run, exec_GetAll, exec_Next]
    <;> rfl

theorem beginLine_number (l : logger) (c : Call D) :
    (c.beginLine F l).number = some l.counter := by
  cases c <;> rfl

theorem exec_run_correlation (l : logger) (c : Call D) :
    (exec (c.run F) l).2.correlation = some l.counter := by
  have h := exec_run_head F l c
  cases ht : (exec (c.run F) l).2.trace with
  | nil => simp [ht] at h
  | cons ev rest =>
    rw [ht] at h
    simp only [List.head?_cons, Option.some.injEq] at h
    subst h
    have hb := beginLine_number F l c
    cases c <;> simp_all [World.correlation, logLines, Call.beginLine]

/-- C1. Each of the nine delegating methods returns exactly what the same
method of the next handler returns for the same info and arguments, and it
calls the next handler once, with the info and the arguments it was given. -/
theorem C1_delegating_returns_next_result (l : logger) (c : Call D)
    (h : c.delegating = true) :
    (exec (c.run F) l).1 = c.next F ∧ nextCalls (exec (c.run F) l).2.trace = [c] := by
  cases c <;>
    simp [Call.delegating] at h <;>
    simp only [Call.run, Call.next, exec_map, exec_PutMultiWithoutTx, exec_PutMultiWithTx,
      exec_GetMultiWithoutTx, exec_GetMultiWithTx, exec_DeleteMultiWithoutTx,
      exec_DeleteMultiWithTx, exec_Run, exec_GetAll, exec_Next] <;>
    (try split) <;> simp [nextCalls, Call.beginLine]

/-- C3. When the next handler returns a non-nil error `e`, a delegating call
logs exactly two lines: its begin line, then the error line of its method,
whose arguments are the correlation number of the call and the message of
`e`. -/
theorem C3_error_logs_begin_and_error_line (l : logger) (c : Call D) (e : D.Error)
    (h : c.delegating = true) (he : (c.next F).err = some e) :
    ∃ format, c.errorFormat = some format ∧
      logLines (exec (c.run F) l).2.trace =
        [c.beginLine F l,
         .Logf (F.Context c.info) (l.Prefix ++ format) [.int l.counter, .str (D.errorString e)]] := by
  cases c <;>
    simp [Call.delegating] at h <;>
    simp only [Call.next, Ret.err] at he <;>
    simp only [Call.run, exec_map, exec_PutMultiWithoutTx, exec_PutMultiWithTx,
      exec_GetMultiWithoutTx, exec_GetMultiWithTx, exec_DeleteMultiWithoutTx,
      exec_DeleteMultiWithTx, exec_Run, exec_GetAll, exec_Next, he] <;>
    simp_all [logLines, Call.beginLine, Call.errorFormat, Call.info]

/-- C4. `PutMultiWithTx` logs only its begin line when the next handler
returns no error, and the begin line followed by the error line (correlation
number, message of `e`) when it returns the error `e`. -/
theorem C4_PutMultiWithTx_never_logs_success (l : logger) (info : D.CacheInfo)
    (keys : List D.Key) (psList : List D.PropertyList) :
    logLines (exec (PutMultiWithTx F info keys psList) l).2.trace =
      .Logf (F.Context info) (l.Prefix ++ "PutMultiWithTx #%d, len(keys)=%d, keys=[%s]")
          [.int l.counter, .int (len keys), .str (KeysToString D keys)] ::
        match ((F.Next info).PutMultiWithTx info keys psList).2 with
        | none => []
        | some e =>
          [.Logf (F.Context info) (l.Prefix ++ "PutMultiWithTx #%d, err=%s")
            [.int l.counter, .str (D.errorString e)]] := by
  rw [exec_PutMultiWithTx]
  split <;> simp_all [logLines, Call.beginLine]

/-- C6. `PostCommit` and `PostRollback` return nil and make exactly one call
to the outside, the `Logf` call of the begin line (prefix, method name,
correlation number); they make no call to the next handler, whatever it is. -/
theorem C6_notifications_log_once_return_nil (l : logger) (info : D.CacheInfo)
    (commit : D.Commit) :
    (exec (PostCommit F info commit) l).1 = none ∧
    (exec (PostCommit F info commit) l).2.trace =
      [.Logf (F.Context info) (l.Prefix ++ "PostCommit #%d") [.int l.counter]] ∧
    (exec (PostRollback F info) l).1 = none ∧
    (exec (PostRollback F info) l).2.trace =
      [.Logf (F.Context info) (l.Prefix ++ "PostRollback #%d") [.int l.counter]] ∧
    (∀ next : D.CacheInfo → CacheStrategy D,
      exec (PostCommit { Context := F.Context, Next := next } info commit) l =
        exec (PostCommit F info commit) l ∧
      exec (PostRollback { Context := F.Context, Next := next } info) l =
        exec (PostRollback F info) l) :=
  ⟨rfl, rfl, rfl, rfl, fun _ => ⟨rfl, rfl⟩⟩

/-- C10. When the next handler returns no error, `PutMultiWithoutTx`, `GetAll`
and `Next` log exactly two lines: the begin line, then an end line with the
same correlation number that summarises what the next handler returned (the
returned keys, or the returned key). -/
theorem C10_success_line_summarises_output (l : logger) (info : D.CacheInfo) :
    (∀ (keys : List D.Key) (psList : List D.PropertyList) (out : List D.Key),
      (F.Next info).PutMultiWithoutTx info keys psList = (out, none) →
      logLines (exec (PutMultiWithoutTx F info keys psList) l).2.trace =
        [.Logf (F.Context info) (l.Prefix ++ "PutMultiWithoutTx #%d, len(keys)=%d, keys=[%s]")
            [.int l.counter, .int (len keys), .str (KeysToString D keys)],
         .Logf (F.Context info) (l.Prefix ++ "PutMultiWithoutTx #%d, keys=[%s]")
            [.int l.counter, .str (KeysToString D out)]]) ∧
    (∀ (q : D.Query) (qDump : D.QueryDump) (psList : List D.PropertyList) (out : List D.Key),
      (F.Next info).GetAll info q qDump psList = (out, none) →
      logLines (exec (GetAll F info q qDump psList) l).2.trace =
        [.Logf (F.Context info) (l.Prefix ++ "GetAll #%d, q=%s")
            [.int l.counter, .str (D.dumpString qDump)],
         .Logf (F.Context info) (l.Prefix ++ "GetAll #%d, len(keys)=%d, keys=[%s]")
            [.int l.counter, .int (len out), .str (KeysToString D out)]]) ∧
    (∀ (q : D.Query) (qDump : D.QueryDump) (iter : D.Iterator) (ps : D.PropertyList)
        (out : D.Key),
      (F.Next info).Next info q qDump iter ps = (out, none) →
      logLines (exec (Next F info q qDump iter ps) l).2.trace =
        [.Logf (F.Context info) (l.Prefix ++ "Next #%d, q=%s")
            [.int l.counter, .str (D.dumpString qDump)],
         .Logf (F.Context info) (l.Prefix ++ "Next #%d, key=%s")
            [.int l.counter, .str (D.keyString out)]]) := by
  refine ⟨?_, ?_, ?_⟩
  · intro keys psList out h
    simp [exec_PutMultiWithoutTx, h, logLines, Call.beginLine]
  · intro q qDump psList out h
    simp [exec_GetAll, h, logLines, Call.beginLine]
  · intro q qDump iter ps out h
    simp [exec_Next, h, logLines, Call.beginLine]

/-- C7, as amended. Every call draws one correlation number (the counter
advances by one Go `int` step, nothing else changes), its first call to the
outside is the begin line, every line it logs carries that number, and it logs
two lines when the method logs successes (`PutMultiWithoutTx`, `GetAll`,
`Next`) or the next handler it delegated to returned an error, one line
otherwise. -/
theorem C7_one_number_one_or_two_lines (l : logger) (c : Call D) :
    (exec (c.run F) l).2.l = { l with counter := wrapInt (l.counter + 1) } ∧
    (exec (c.run F) l).2.trace.head? = some (c.beginLine F l) ∧
    (∀ ev ∈ logLines (exec (c.run F) l).2.trace, ev.number = some l.counter) ∧
    (logLines (exec (c.run F) l).2.trace).length =
      if c.logsSuccess || (c.delegating && ((c.next F).err).isSome) then 2 else 1 := by
  refine ⟨exec_run_logger F l c, exec_run_head F l c, ?_, ?_⟩ <;>
  cases c <;>
    simp only [Call.run, Call.next, exec_map, exec_PutMultiWithoutTx, exec_PutMultiWithTx,
      exec_GetMultiWithoutTx, exec_GetMultiWithTx, exec_DeleteMultiWithoutTx,
      exec_DeleteMultiWithTx, exec_PostCommit, exec_PostRollback, exec_Run, exec_GetAll, exec_Next,
      Call.logsSuccess, Call.delegating, Ret.err] <;>
    (try split) <;>
    simp_all [logLines, Call.beginLine, Event.number]

end single

/-! ### Sequences of calls -/

section sequences

variable {D : Datastore} (F : CacheInfoFields D)

theorem wrapInt_wrapInt_add (a b : Int) : wrapInt (wrapInt a + b) = wrapInt (a + b) := by
  unfold wrapInt
  omega

theorem wrapInt_of_inRange (a : Int) (h1 : -2 ^ 63 ≤ a) (h2 : a < 2 ^ 63) : wrapInt a = a := by
  unfold wrapInt
  omega

/-- On a receiver whose counter is `a` reduced to a Go `int`, the call at
position `k` of a sequence uses `a + k` reduced to a Go `int` and leaves the
counter at `a + k + 1` reduced to a Go `int`. -/
theorem runCalls_get (cs : List (Call D)) :
    ∀ (l : logger) (k : Nat) (a : Int), l.counter = wrapInt a → k < cs.length →
      ((runCalls F l cs)[k]?).bind World.correlation = some (wrapInt (a + k)) ∧
      ((runCalls F l cs)[k]?).map (fun w => w.l.counter) = some (wrapInt (a + k + 1)) := by
  induction cs with
  | nil => intro l k a _ hk; simp at hk
  | cons c cs ih =>
    intro l k a ha hk
    cases k with
    | zero =>
      simp [runCalls, exec_run_correlation, exec_run_logger, logger.bump, ha, wrapInt_wrapInt_add]
    | succ k =>
      have hl : (exec (c.run F) l).2.l.counter = wrapInt (a + 1) := by
        rw [exec_run_logger, logger.bump, ha, wrapInt_wrapInt_add]
      have := ih (exec (c.run F) l).2.l k (a + 1) hl (by simpa using hk)
      simp only [runCalls, List.getElem?_cons_succ]
      rw [this.1, this.2]
      constructor <;> congr 2 <;> push_cast <;> ring

/-- C2, as amended. On a logger freshly built by `NewLogger`, in a sequence of
calls of any of the eleven methods, the call at position `k` (counted from 0)
uses the correlation number `k + 1` as long as `k + 1` is a Go `int`
(`k + 1 < 2^63`), and leaves the counter one Go `int` step further. -/
theorem C2_kth_call_uses_k (pfx : String) (cs : List (Call D)) (k : Nat)
    (hk : k < cs.length) (hb : (k : Int) + 1 < 2 ^ 63) :
    ((runCalls F (NewLogger pfx) cs)[k]?).bind World.correlation = some ((k : Int) + 1) ∧
    ((runCalls F (NewLogger pfx) cs)[k]?).map (fun w => w.l.counter) =
      some (wrapInt ((k : Int) + 1 + 1)) := by
  have h := runCalls_get F cs (NewLogger pfx) k 1 (by simp [NewLogger, wrapInt]) hk
  have e : wrapInt (1 + (k : Int)) = (k : Int) + 1 := by
    rw [wrapInt_of_inRange] <;> omega
  have e2 : (1 : Int) + (k : Int) + 1 = (k : Int) + 1 + 1 := by ring
  rw [h.1, h.2, e, e2]
  exact ⟨rfl, rfl⟩

end sequences

/-! ### Key rendering -/

theorem foldl_append_singleton {α β : Type} (f : α → β) (xs : List α) (init : List β) :
    xs.foldl (fun acc x => acc ++ [f x]) init = init ++ xs.map f := by
  induction xs generalizing init with
  | nil => simp
  | cons x xs ih => simp [ih]

theorem joinedWith_append_head (sep a b : String) (rest : List String) :
    joinedWith sep ((a ++ b) :: rest) = a ++ joinedWith sep (b :: rest) := by
  cases rest with
  | nil => rfl
  | cons u rest => simp [joinedWith, String.append_assoc]

theorem stringsJoin_eq_joinedWith (elems : List String) (sep : String) :
    stringsJoin elems sep = joinedWith sep elems := by
  cases elems with
  | nil => rfl
  | cons first rest =>
    simp only [stringsJoin]
    induction rest generalizing first with
    | nil => rfl
    | cons t rest ih =>
      rw [List.foldl_cons, ih, String.append_assoc, joinedWith_append_head,
        joinedWith_append_head, ← String.append_assoc]
      rfl

/-- C5. `KeysToString` gives the `String()` forms of the keys, in order,
joined by `", "` with no separator before the first or after the last: two
keys give `k1, k2`, one key gives its string, no key gives the empty string. -/
theorem C5_KeysToString_joins_key_strings (D : Datastore) (keys : List D.Key) :
    KeysToString D keys = joinedWith ", " (keys.map D.keyString) ∧
    (∀ k1 k2 : D.Key, KeysToString D [k1, k2] = D.keyString k1 ++ ", " ++ D.keyString k2) ∧
    (∀ k : D.Key, KeysToString D [k] = D.keyString k) ∧
    KeysToString D [] = "" := by
  have h : ∀ ks : List D.Key, KeysToString D ks = joinedWith ", " (ks.map D.keyString) := by
    intro ks
    simp only [KeysToString, foldl_append_singleton, List.nil_append, stringsJoin_eq_joinedWith]
  refine ⟨h keys, fun k1 k2 => ?_, fun k => ?_, ?_⟩
  · rw [h]; rfl
  · rw [h]; rfl
  · rw [h]; rfl

/-! ### Concrete runs -/

/-- C1, at a concrete input: `GetAll` on a fresh logger. -/
theorem C1_witness :
    (Call.GetAll (D := exD) false () "q" []).delegating = true ∧
    ((exec ((Call.GetAll (D := exD) false () "q" []).run exF) (NewLogger "ds: ")).1 =
        (Call.GetAll (D := exD) false () "q" []).next exF ∧
      nextCalls (exec ((Call.GetAll (D := exD) false () "q" []).run exF) (NewLogger "ds: ")).2.trace =
        [Call.GetAll (D := exD) false () "q" []]) :=
  ⟨rfl, C1_delegating_returns_next_result exF (NewLogger "ds: ") (.GetAll false () "q" []) rfl⟩

/-- C3, at a concrete input: a failing `Next` on a fresh logger. -/
theorem C3_witness :
    (Call.Next (D := exD) true () "q" (3 : Nat) ()).delegating = true ∧
    ((Call.Next (D := exD) true () "q" (3 : Nat) ()).next exF).err = some "boom" ∧
    ∃ format, (Call.Next (D := exD) true () "q" (3 : Nat) ()).errorFormat = some format ∧
      logLines
          (exec ((Call.Next (D := exD) true () "q" (3 : Nat) ()).run exF) (NewLogger "ds: ")).2.trace =
        [(Call.Next (D := exD) true () "q" (3 : Nat) ()).beginLine exF (NewLogger "ds: "),
         .Logf () ((NewLogger "ds: ").Prefix ++ format)
           [.int (NewLogger "ds: ").counter, .str "boom"]] :=
  ⟨rfl, rfl,
    C3_error_logs_begin_and_error_line exF (NewLogger "ds: ") (.Next true () "q" (3 : Nat) ()) "boom"
      rfl rfl⟩

/-- C10, at a concrete input: the three methods on a fresh logger with a
handler that succeeds and returns keys other than those passed in. -/
theorem C10_witness :
    logLines (exec (PutMultiWithoutTx exF false ["k"] [()]) (NewLogger "ds: ")).2.trace =
      [.Logf () "ds: PutMultiWithoutTx #%d, len(keys)=%d, keys=[%s]" [.int 1, .int 1, .str "k"],
       .Logf () "ds: PutMultiWithoutTx #%d, keys=[%s]" [.int 1, .str "new, k"]] ∧
    logLines (exec (GetAll exF false () "q" []) (NewLogger "ds: ")).2.trace =
      [.Logf () "ds: GetAll #%d, q=%s" [.int 1, .str "q"],
       .Logf () "ds: GetAll #%d, len(keys)=%d, keys=[%s]" [.int 1, .int 2, .str "a, b"]] ∧
    logLines (exec (Next exF false () "q" (3 : Nat) ()) (NewLogger "ds: ")).2.trace =
      [.Logf () "ds: Next #%d, q=%s" [.int 1, .str "q"],
       .Logf () "ds: Next #%d, key=%s" [.int 1, .str "a"]] :=
  ⟨(C10_success_line_summarises_output exF (NewLogger "ds: ") false).1 ["k"] [()] ["new", "k"] rfl,
   (C10_success_line_summarises_output exF (NewLogger "ds: ") false).2.1 () "q" [] ["a", "b"] rfl,
   (C10_success_line_summarises_output exF (NewLogger "ds: ") false).2.2 () "q" (3 : Nat) () "a" rfl⟩

/-- C7, counterexample. A `PostRollback` call logs one line, not two. -/
theorem C7_counterexample_PostRollback_logs_one_line :
    logLines (exec ((Call.PostRollback (D := exD) false).run exF) (NewLogger "ds: ")).2.trace =
      [.Logf () "ds: PostRollback #%d" [.int 1]] ∧
    (logLines (exec ((Call.PostRollback (D := exD) false).run exF) (NewLogger "ds: ")).2.trace).length
      ≠ 2 :=
  ⟨rfl, by decide⟩

/-- C2, at a concrete input: the third of three calls uses the number 3. -/
theorem C2_witness :
    (2 : Nat) < [Call.PostRollback (D := exD) true, .GetMultiWithTx false ["k"] [],
      .Run true () "q"].length ∧
    ((2 : Nat) : Int) + 1 < 2 ^ 63 ∧
    ((runCalls exF (NewLogger "ds: ") [Call.PostRollback (D := exD) true,
        .GetMultiWithTx false ["k"] [], .Run true () "q"])[2]?).bind World.correlation =
      some (((2 : Nat) : Int) + 1) ∧
    ((runCalls exF (NewLogger "ds: ") [Call.PostRollback (D := exD) true,
        .GetMultiWithTx false ["k"] [], .Run true () "q"])[2]?).map (fun w => w.l.counter) =
      some (wrapInt (((2 : Nat) : Int) + 1 + 1)) :=
  ⟨by decide, by decide,
    C2_kth_call_uses_k exF "ds: " [.PostRollback true, .GetMultiWithTx false ["k"] [],
      .Run true () "q"] 2 (by decide) (by decide)⟩

/-- C2, counterexample. On a fresh logger, call number `2^63` of a sequence of
`2^63` calls uses the correlation number `-2^63`, not `2^63`: the counter, a Go
`int`, has wrapped. -/
theorem C2_counterexample_counter_wraps :
    ((runCalls exF (NewLogger "ds: ")
        (List.replicate (2 ^ 63) (Call.PostRollback (D := exD) false)))[2 ^ 63 - 1]?).bind
      World.correlation = some (-9223372036854775808) ∧
    (-9223372036854775808 : Int) ≠ 2 ^ 63 := by
  refine ⟨?_, by decide⟩
  have h := (runCalls_get exF (List.replicate (2 ^ 63) (Call.PostRollback (D := exD) false))
    (NewLogger "ds: ") (2 ^ 63 - 1) 1 (by simp [NewLogger, wrapInt])
    (by rw [List.length_replicate]; exact Nat.sub_lt (Nat.two_pow_pos 63) (by decide))).1
  rw [h]
  congr 1

end dslog

namespace favcliptools

theorem digitChar_facts : ∀ d, d < 10 →
    isDigit (digitChar d) = true ∧ (digitChar d).toNat - 48 = d ∧ isSpace (digitChar d) = false ∧
    digitChar d ≠ '-' ∧ (digitChar d = '0' ↔ d = 0) ∧
    (1 ≤ d → '1' ≤ digitChar d ∧ digitChar d ≤ '9') := by
  decide

/-- With enough fuel the digit loop writes the digits of `u` before the
buffer; the digits of `u ≥ 10` are those of `u / 10` and the last digit. -/
theorem fmtUint_fuel (u : Nat) : ∀ (fuel : Nat) (buf : List Char), u ≤ fuel →
    fmtUint fuel u buf = fmtUint u u [] ++ buf := by
  induction u using Nat.strong_induction_on with
  | _ u ih =>
    intro fuel buf hu
    by_cases h10 : u ≥ 10
    · obtain ⟨f, rfl⟩ : ∃ f, fuel = f + 1 := ⟨fuel - 1, by omega⟩
      obtain ⟨u1, rfl⟩ : ∃ u1, u = u1 + 1 := ⟨u - 1, by omega⟩
      simp only [fmtUint, h10, if_true]
      rw [ih ((u1 + 1) / 10) (by omega) f _ (by omega),
        ih ((u1 + 1) / 10) (by omega) u1 _ (by omega)]
      simp
    · cases fuel with
      | zero =>
        obtain rfl : u = 0 := by omega
        simp [fmtUint]
      | succ f =>
        cases u with
        | zero => simp [fmtUint]
        | succ u1 => simp [fmtUint, h10]

theorem fmtUint_step (u : Nat) (h : u ≥ 10) :
    fmtUint u u [] = fmtUint (u / 10) (u / 10) [] ++ [digitChar (u % 10)] := by
  obtain ⟨u1, rfl⟩ : ∃ u1, u = u1 + 1 := ⟨u - 1, by omega⟩
  simp only [fmtUint, h, if_true]
  rw [fmtUint_fuel _ u1 _ (by omega)]

theorem fmtUint_small (u : Nat) (h : u < 10) : fmtUint u u [] = [digitChar u] := by
  cases u with
  | zero => simp [fmtUint]
  | succ u1 => simp [fmtUint]; omega

theorem fmtUint_chars (u : Nat) : ∀ c ∈ fmtUint u u [], isDigit c = true ∧ isSpace c = false := by
  induction u using Nat.strong_induction_on with
  | _ u ih =>
    intro c hc
    by_cases h10 : u ≥ 10
    · rw [fmtUint_step u h10, List.mem_append, List.mem_singleton] at hc
      rcases hc with hc | rfl
      · exact ih (u / 10) (by omega) c hc
      · have := digitChar_facts (u % 10) (by omega)
        exact ⟨this.1, this.2.2.1⟩
    · rw [fmtUint_small u (by omega), List.mem_singleton] at hc
      subst hc
      have := digitChar_facts u (by omega)
      exact ⟨this.1, this.2.2.1⟩

/-- The digits of `0` are the single `0`; those of a positive number start
with a digit from 1 to 9. -/
theorem fmtUint_head (u : Nat) :
    (u = 0 ∧ fmtUint u u [] = ['0']) ∨
    (∃ d rest, fmtUint u u [] = d :: rest ∧ '1' ≤ d ∧ d ≤ '9' ∧ ∀ c ∈ rest, isDigit c = true) := by
  induction u using Nat.strong_induction_on with
  | _ u ih =>
    by_cases h10 : u ≥ 10
    · right
      rcases ih (u / 10) (by omega) with ⟨h0, _⟩ | ⟨d, rest, hd, h1, h9, hr⟩
      · omega
      · refine ⟨d, rest ++ [digitChar (u % 10)], ?_, h1, h9, ?_⟩
        · rw [fmtUint_step u h10, hd]; rfl
        · intro c hc
          rw [List.mem_append, List.mem_singleton] at hc
          rcases hc with hc | rfl
          · exact hr c hc
          · exact (digitChar_facts (u % 10) (by omega)).1
    · by_cases h0 : u = 0
      · left; subst h0; exact ⟨rfl, rfl⟩
      · right
        have := digitChar_facts u (by omega)
        exact ⟨digitChar u, [], fmtUint_small u (by omega), (this.2.2.2.2.2 (by omega)).1,
          (this.2.2.2.2.2 (by omega)).2, by simp⟩

theorem parseUintLoop_append (xs ys : List Char) : ∀ n : Nat,
    parseUintLoop n (xs ++ ys) = (parseUintLoop n xs).bind (fun m => parseUintLoop m ys) := by
  induction xs with
  | nil => intro n; rfl
  | cons c xs ih =>
    intro n
    simp only [List.cons_append, parseUintLoop]
    split
    · split
      · rfl
      · exact ih _
    · rfl

theorem parseUintLoop_fmtUint (u : Nat) (hu : u < 2 ^ 64) :
    parseUintLoop 0 (fmtUint u u []) = .ok u := by
  induction u using Nat.strong_induction_on with
  | _ u ih =>
    by_cases h10 : u ≥ 10
    · have hd := digitChar_facts (u % 10) (by omega)
      rw [fmtUint_step u h10, parseUintLoop_append, ih (u / 10) (by omega) (by omega)]
      simp only [Except.bind, parseUintLoop, hd.1, hd.2.1, if_true]
      rw [if_neg (by omega)]
      congr 1
      omega
    · have hd := digitChar_facts u (by omega)
      rw [fmtUint_small u (by omega)]
      simp only [parseUintLoop, hd.1, hd.2.1, if_true]
      rw [if_neg (by omega)]
      simp

theorem fmtUint_ne_nil (u : Nat) : fmtUint u u [] ≠ [] := by
  rcases fmtUint_head u with ⟨_, h⟩ | ⟨d, rest, h, _⟩ <;> simp [h]

theorem dropWhile_isDigit_of_all (s : List Char) (h : ∀ c ∈ s, isDigit c = true) :
    s.dropWhile isDigit = [] := by
  rw [List.dropWhile_eq_nil_iff]
  exact h

theorem isValidNumber_digits (d : Char) (rest : List Char)
    (h : (d = '0' ∧ rest = []) ∨ ('1' ≤ d ∧ d ≤ '9' ∧ ∀ c ∈ rest, isDigit c = true)) :
    isValidNumber (d :: rest) = true ∧ isValidNumber ('-' :: d :: rest) = true := by
  have hm : d ≠ '-' := by
    rcases h with ⟨rfl, _⟩ | ⟨h1, _, _⟩
    · decide
    · rintro rfl; exact absurd h1 (by decide)
  rcases h with ⟨rfl, rfl⟩ | ⟨h1, h9, hr⟩
  · exact ⟨by decide, by decide⟩
  · have h0 : d ≠ '0' := by rintro rfl; exact absurd h1 (by decide)
    simp [isValidNumber, hm, h0, h1, h9, dropWhile_isDigit_of_all rest hr]

theorem isValidNumber_SprintfD (v : Int) : isValidNumber (SprintfD v) = true := by
  have key : ∀ u : Nat, isValidNumber (fmtUint u u []) = true ∧
      isValidNumber ('-' :: fmtUint u u []) = true := by
    intro u
    rcases fmtUint_head u with ⟨_, h⟩ | ⟨d, rest, h, h1, h9, hr⟩
    · rw [h]; exact ⟨by decide, by decide⟩
    · rw [h]; exact isValidNumber_digits d rest (Or.inr ⟨h1, h9, hr⟩)
  unfold SprintfD
  split
  · exact (key _).2
  · exact (key _).1

theorem trimSpace_of_noSpace (s : List Char) (h : ∀ c ∈ s, isSpace c = false) :
    trimSpace s = s := by
  have drop : ∀ t : List Char, (∀ c ∈ t, isSpace c = false) → t.dropWhile isSpace = t := by
    intro t ht
    cases t with
    | nil => rfl
    | cons c t => simp [List.dropWhile, ht c (by simp)]
  unfold trimSpace
  rw [drop s h, drop s.reverse (by simpa using h), List.reverse_reverse]

theorem SprintfD_noSpace (v : Int) : ∀ c ∈ SprintfD v, isSpace c = false := by
  intro c hc
  unfold SprintfD at hc
  split at hc
  · rw [List.mem_cons] at hc
    rcases hc with rfl | hc
    · decide
    · exact (fmtUint_chars _ c hc).2
  · exact (fmtUint_chars _ c hc).2

theorem ParseInt_SprintfD (v : Int) (h : isInt64 v) : ParseInt (SprintfD v) = .ok v := by
  obtain ⟨hlo, hhi⟩ := h
  have hne := fmtUint_ne_nil v.natAbs
  have hp := parseUintLoop_fmtUint v.natAbs (by omega)
  unfold SprintfD
  by_cases hneg : v < 0
  · simp only [hneg, if_true, ParseInt, ParseUint, hne, if_false, hp, decide_True, or_true,
      Bool.not_true, Bool.false_and, Bool.true_and]
    rw [if_neg (by simp), if_neg (by simp; omega)]
    congr 1
    omega
  · rcases hd : fmtUint v.natAbs v.natAbs [] with _ | ⟨d, rest⟩
    · exact absurd hd hne
    · have hdig : isDigit d = true := (fmtUint_chars v.natAbs d (by simp [hd])).1
      have hm : d ≠ '-' := by rintro rfl; exact absurd hdig (by decide)
      have hpl : d ≠ '+' := by rintro rfl; exact absurd hdig (by decide)
      rw [hd] at hp
      simp only [hneg, if_false, ParseInt, hm, hpl, or_self, ParseUint, decide_False,
        Bool.not_false, Bool.true_and, Bool.false_and, reduceCtorEq, hp]
      rw [if_neg (by simp; omega)]
      simp
      omega


/-- C8. For every `int64` value `v`, `MarshalJSON` does not fail, it gives the
decimal digits of `v`, and `UnmarshalJSON` on these bytes returns no error and
sets the receiver to `v`; the `User` of the test, ids 100 and 200, is
marshalled to the text the test expects, ids as unquoted decimal numbers, and
that text is unmarshalled into an empty `User` without error, giving the ids
100 and 200 and the name back. -/
theorem C8_userID_json_round_trip (v : Int) (hv : isInt64 v) (id : userID) :
    userID.MarshalJSON v = .ok (SprintfD v) ∧
    userID.UnmarshalJSON id (SprintfD v) = (v, none) ∧
    jsonMarshalUser { ID := 100, Name := "foobar", MentorID := 200 } =
      some (.ok "\x7b\"id\":100,\"name\":\"foobar\",\"mentorID\":200\x7d".toList) ∧
    jsonUnmarshalUser "\x7b\"id\":100,\"name\":\"foobar\",\"mentorID\":200\x7d".toList
        { ID := 0, Name := "", MentorID := 0 } =
      some ({ ID := 100, Name := "foobar", MentorID := 200 }, none) := by
  have hvalid := isValidNumber_SprintfD v
  have hne : SprintfD v ≠ [] := by
    intro h
    rw [h] at hvalid
    exact absurd hvalid (by decide)
  refine ⟨?_, ?_, rfl, by decide⟩
  · simp [userID.MarshalJSON, jsonMarshalNumber, hne, hvalid]
  · simp [userID.UnmarshalJSON, jsonUnmarshalNumber, trimSpace_of_noSpace _ (SprintfD_noSpace v),
      hvalid, ParseInt_SprintfD v hv]

/-- C8, at a concrete input: the smallest `int64`. -/
theorem C8_witness :
    isInt64 (-9223372036854775808) ∧
    userID.MarshalJSON (-9223372036854775808) = .ok (SprintfD (-9223372036854775808)) ∧
    userID.UnmarshalJSON 7 (SprintfD (-9223372036854775808)) = (-9223372036854775808, none) ∧
    jsonMarshalUser { ID := 100, Name := "foobar", MentorID := 200 } =
      some (.ok "\x7b\"id\":100,\"name\":\"foobar\",\"mentorID\":200\x7d".toList) ∧
    jsonUnmarshalUser "\x7b\"id\":100,\"name\":\"foobar\",\"mentorID\":200\x7d".toList
        { ID := 0, Name := "", MentorID := 0 } =
      some ({ ID := 100, Name := "foobar", MentorID := 200 }, none) :=
  ⟨⟨by decide, by decide⟩,
    C8_userID_json_round_trip (-9223372036854775808) ⟨by decide, by decide⟩ 7⟩

end favcliptools
